import Mathlib

/-!
# Verification of the VitePress build/router core

A shallow embedding, in Lean 4, of the parts of the vitepress-comment
repository that the specification's claims are about:

* the shared helpers `createTitle` / `createTitleTemplate`, `mergeHead` /
  `hasTag` and `treatAsHtml` (src/client/shared.ts),
* the dead-link check and `shouldIgnoreDeadLink` inside
  `createMarkdownToVueRenderFn` (src/node/markdownToVue.ts) together with the
  `renderStart` dead-link report (src/node/plugin.ts),
* `resolveRewrites` (src/node/plugins/rewritesPlugin.ts),
* `resolvePages` (src/node/plugins/dynamicRoutesPlugin.ts),
* the client `generateBundle` post-processing (src/node/plugin.ts),
* the client router: `loadPage` of `createRouter` (src/client/app/router.ts)
  and the lean/full module selection of `newRouter` (src/client/app/index.ts).

JavaScript strings are modelled as Lean `String`s, with the string operations
implemented over the underlying character list so that every definition
evaluates inside the kernel.  External collaborators (the WHATWG URL parser,
the filesystem, `path-to-regexp`, dynamic `import`) appear as explicit
function parameters of the embeddings, mirroring the call sites.
-/

namespace VP

/-! ## String primitives (over `List Char`) -/

/-- Model of `s.toLowerCase()` (ASCII case folding, as used for page names). -/
def lowerStr (s : String) : String := String.mk (s.data.map Char.toLower)

/-- Model of `s.endsWith(suffix)`. -/
def strEndsWith (s suffix : String) : Bool := suffix.data.isSuffixOf s.data

/-- Model of `s.startsWith(prefix)`. -/
def strStartsWith (s p : String) : Bool := p.data.isPrefixOf s.data

/-- Model of `s.slice(n)`: drop the first `n` characters. -/
def dropLeftStr (n : Nat) (s : String) : String := String.mk (s.data.drop n)

/-- Model of `s.slice(0, -n)`: drop the last `n` characters (empty if `n ≥ length`). -/
def dropRightStr (n : Nat) (s : String) : String :=
  String.mk (s.data.take (s.data.length - n))

/-- Does `pat` occur as a contiguous substring? (`s.includes(pat)`.) -/
def subOccurs (pat : List Char) : List Char → Bool
  | [] => pat.isPrefixOf []
  | c :: cs => pat.isPrefixOf (c :: cs) || subOccurs pat cs

/-- Model of `s.includes(pat)`. -/
def strContains (s pat : String) : Bool := subOccurs pat.data s.data

/-- Fuelled worker for global, non-overlapping, left-to-right replacement
of a fixed non-empty pattern (the semantics of `s.replace(/pat/g, rep)`
for a literal pattern: the replacement text is not rescanned). -/
def replaceAllAux (pat rep : List Char) : Nat → List Char → List Char
  | _, [] => []
  | 0, l => l
  | fuel + 1, c :: cs =>
    if pat.isPrefixOf (c :: cs) then
      rep ++ replaceAllAux pat rep fuel ((c :: cs).drop pat.length)
    else
      c :: replaceAllAux pat rep fuel cs

/-- Model of `s.replace(/pat/g, rep)` for a literal non-empty pattern `pat`. -/
def replaceAllStr (s pat rep : String) : String :=
  if pat.data = [] then s
  else String.mk (replaceAllAux pat.data rep.data s.data.length s.data)

/-! ## `createTitle` (src/client/shared.ts)

`PageData.titleTemplate` / `SiteData.titleTemplate` has TypeScript type
`string | boolean | undefined`; it is embedded as an inductive type. -/

inductive TitleTemplate where
  | unset : TitleTemplate
  | flag : Bool → TitleTemplate
  | str : String → TitleTemplate
deriving DecidableEq

/-- Model of `createTitleTemplate(siteTitle, template)`:
`false → ''`; `true`/`undefined → ' | ' + siteTitle`;
a string equal to `siteTitle → ''`; any other string `t → ' | ' + t`. -/
def createTitleTemplate (siteTitle : String) (template : TitleTemplate) : String :=
  match template with
  | .flag false => ""
  | .flag true => " | " ++ siteTitle
  | .unset => " | " ++ siteTitle
  | .str t => if siteTitle = t then "" else " | " ++ t

/-- Is the effective template a string containing the `:title` placeholder?
(`typeof template === 'string' && template.includes(':title')`.) -/
def templateHasTitleToken : TitleTemplate → Bool
  | .str t => strContains t ":title"
  | _ => false

/-- The string carried by a `.str` template (only used under
`templateHasTitleToken`). -/
def templateStr : TitleTemplate → String
  | .str t => t
  | _ => ""

/-- Model of `createTitle(siteData, pageData)`.
`title = pageData.title || siteData.title` (empty string is falsy);
`template = pageData.titleTemplate ?? siteData.titleTemplate`;
if the template is a string containing `:title`, every occurrence of the
placeholder is substituted; otherwise, writing
`templateString = createTitleTemplate(siteData.title, template)`, the result
is `title` alone when `title === templateString.slice(3)`, and
`title + templateString` otherwise. -/
def createTitle (siteTitle : String) (siteTpl : TitleTemplate)
    (pageTitle : String) (pageTpl : TitleTemplate) : String :=
  let title := if pageTitle = "" then siteTitle else pageTitle
  let template := match pageTpl with
    | .unset => siteTpl
    | t => t
  if templateHasTitleToken template then
    replaceAllStr (templateStr template) ":title" title
  else
    let templateString := createTitleTemplate siteTitle template
    if title = dropLeftStr 3 templateString then title
    else title ++ templateString

/-- The suffix enumeration exactly as the claim words it: empty when the
template is `false`, `" | {siteTitle}"` when `true` or undefined, empty when
the template string equals the site title, `" | {template}"` otherwise.
Written from the claim, for comparison with the source embedding. -/
def claimSuffix (siteTitle : String) : TitleTemplate → String
  | .flag false => ""
  | .flag true => " | " ++ siteTitle
  | .unset => " | " ++ siteTitle
  | .str t => if t = siteTitle then "" else " | " ++ t

/-- The title rule exactly as the claim states it (spec-side definition, for
comparison with `createTitle`): effective template string containing
`:title` means substitute; otherwise the result is always
`title ++ claimSuffix`.  It has no analogue of the source's
`title === templateString.slice(3)` escape. -/
def claimTitleRule (siteTitle : String) (siteTpl : TitleTemplate)
    (pageTitle : String) (pageTpl : TitleTemplate) : String :=
  let title := if pageTitle = "" then siteTitle else pageTitle
  let template := match pageTpl with
    | .unset => siteTpl
    | t => t
  match template with
  | .str t =>
    if strContains t ":title" then replaceAllStr t ":title" title
    else title ++ claimSuffix siteTitle (.str t)
  | t => title ++ claimSuffix siteTitle t

/-- The amended title rule: as claimed, except that when the title coincides
with the suffix content (the suffix minus its three-character `" | "`
separator) the result is the bare title with no suffix. -/
def claimTitleRuleAmended (siteTitle : String) (siteTpl : TitleTemplate)
    (pageTitle : String) (pageTpl : TitleTemplate) : String :=
  let title := if pageTitle = "" then siteTitle else pageTitle
  let template := match pageTpl with
    | .unset => siteTpl
    | t => t
  match template with
  | .str t =>
    if strContains t ":title" then replaceAllStr t ":title" title
    else
      let suffix := claimSuffix siteTitle (.str t)
      if title = dropLeftStr 3 suffix then title else title ++ suffix
  | t =>
    let suffix := claimSuffix siteTitle t
    if title = dropLeftStr 3 suffix then title else title ++ suffix

/-! ## `hasTag` / `mergeHead` (src/client/shared.ts)

A `HeadConfig` entry `[tag, attrs, innerHTML]` is embedded as a structure;
the attribute object is an association list in insertion order (so
`Object.entries(attrs)[0]` is the head of the list, and property access
`attrs[k]` is `List.lookup k`). -/

structure HeadTag where
  tag : String
  attrs : List (String × String)
  inner : String
deriving DecidableEq

/-- Model of `hasTag(head, tag)`: only `meta` tags are ever matched; the candidate's
first attribute key/value pair must appear among the attributes of some tag
of `head` with the same tag type. -/
def hasTag (head : List HeadTag) (t : HeadTag) : Bool :=
  if t.tag ≠ "meta" then false
  else
    match t.attrs.head? with
    | none => false
    | some (k, v) =>
      head.any fun u => u.tag == t.tag && u.attrs.lookup k == some v

/-- Model of `mergeHead(prev, curr)`: keep the tags of `prev` not matched by `curr`,
then append all of `curr`. -/
def mergeHead (prev curr : List HeadTag) : List HeadTag :=
  prev.filter (fun t => !hasTag curr t) ++ curr

/-- Coverage as the claim words it: some `meta` tag of `curr` carries the
candidate's first attribute key mapped to the same value. -/
def HeadCovered (curr : List HeadTag) (t : HeadTag) : Prop :=
  ∃ k v, t.attrs.head? = some (k, v) ∧
    ∃ u ∈ curr, u.tag = "meta" ∧ u.attrs.lookup k = some v

/-! ## `treatAsHtml` (src/client/shared.ts)

The extension set is the source's literal list (the optional
`VITE_EXTRA_EXTENSIONS` environment variable is absent, so no extra
extensions are added, matching the default environment). -/

def knownExtensions : List String :=
  ["3g2", "3gp", "aac", "ai", "apng", "au", "avif", "bin", "bmp", "cer",
   "class", "conf", "crl", "css", "csv", "dll", "doc", "eps", "epub", "exe",
   "gif", "gz", "ics", "ief", "jar", "jpe", "jpeg", "jpg", "js", "json",
   "jsonld", "m4a", "man", "mid", "midi", "mjs", "mov", "mp2", "mp3", "mp4",
   "mpe", "mpeg", "mpg", "mpp", "oga", "ogg", "ogv", "ogx", "opus", "otf",
   "p10", "p7c", "p7m", "p7s", "pdf", "png", "ps", "qt", "roff", "rtf",
   "rtx", "ser", "svg", "t", "tif", "tiff", "tr", "ts", "tsv", "ttf", "txt",
   "vtt", "wav", "weba", "webm", "webp", "woff", "woff2", "xhtml", "xml",
   "yaml", "yml", "zip"]

/-- Model of `filename.split('.').pop()`: the part after the last dot (the whole
string when there is no dot). -/
def afterLastDot (s : String) : String :=
  String.mk ((s.data.reverse.takeWhile (fun c => !(c == '.'))).reverse)

/-- Model of `treatAsHtml(filename)`: true unless the extension (lowercased) is one
of the known non-HTML extensions. -/
def treatAsHtml (filename : String) : Bool :=
  !(knownExtensions.contains (lowerStr (afterLastDot filename)))

/-! ## `shouldIgnoreDeadLink` and the dead-link check
(src/node/markdownToVue.ts) -/

/-- One element of an `ignoreDeadLinks` array: an exact string, a `RegExp`
(embedded as its test predicate), a predicate function, or any other value
(which matches nothing). -/
inductive IgnoreEntry where
  | str (s : String)
  | pattern (test : String → Bool)
  | pred (f : String → Bool)
  | other

/-- The `ignoreDeadLinks` configuration: absent/false (falsy), `true`,
the string `'localhostLinks'`, or an array of entries. -/
inductive IgnorePolicy where
  | unset
  | all
  | localhostLinks
  | entries (es : List IgnoreEntry)

/-- Model of `url.replace(EXTERNAL_URL_RE, '')` with
`EXTERNAL_URL_RE = /^(?:[a-z]+:|\/\/)/i`: strip one leading
`scheme:` (letters followed by a colon) or a leading `//`. -/
def stripExternalScheme (url : String) : String :=
  let cs := url.data
  let scheme := cs.takeWhile (fun c => c.isAlpha)
  if scheme ≠ [] ∧ (cs.drop scheme.length).head? = some ':' then
    String.mk (cs.drop (scheme.length + 1))
  else if strStartsWith url "//" then String.mk (cs.drop 2)
  else url

/-- Model of `shouldIgnoreDeadLink(url)` from `createMarkdownToVueRenderFn`. -/
def shouldIgnoreDeadLink (policy : IgnorePolicy) (url : String) : Bool :=
  match policy with
  | .unset => false
  | .all => true
  | .localhostLinks => strStartsWith (stripExternalScheme url) "//localhost"
  | .entries es =>
    es.any fun e =>
      match e with
      | .str s => url == s
      | .pattern t => t url
      | .pred f => f url
      | .other => false

/-- Model of `url.replace(/[?#].*$/, '')`: cut the url at the first `?` or `#`. -/
def stripQueryHash (url : String) : String :=
  String.mk (url.data.takeWhile (fun c => !(c == '?' || c == '#')))

/-- Model of `url.replace(/\.(html|md)$/, '')`. -/
def stripHtmlMdSuffix (s : String) : String :=
  if strEndsWith s ".html" then dropRightStr 5 s
  else if strEndsWith s ".md" then dropRightStr 3 s
  else s

/-- Model of `slash(p)` (src/client/shared.ts): backslashes to forward slashes. -/
def slash (p : String) : String :=
  String.mk (p.data.map (fun c => if c == '\\' then '/' else c))

/-- The ambient inputs of one iteration of the dead-link loop.  The WHATWG
URL parser, the `path` module, `decodeURIComponent`, the rewrite inverse
map and the filesystem are external collaborators and appear as explicit
data. -/
structure LinkEnv where
  /-- Model of `new URL(url, 'http://a.com').pathname` for the url under test. -/
  pathname : String
  /-- Model of `path.relative(srcDir, path.resolve(dir, ·))` for relative links. -/
  fsResolve : String → String
  /-- Model of `decodeURIComponent`. -/
  decodeComp : String → String
  /-- lookup in `siteConfig.rewrites.inv`. -/
  rewritesInv : String → Option String
  /-- the page list (already `.md`-stripped and slashed). -/
  pages : List String
  /-- Model of `fs.existsSync(path.resolve(dir, publicDir, resolved + '.html'))`. -/
  publicExists : String → Bool
  /-- the resolved `ignoreDeadLinks` configuration. -/
  policy : IgnorePolicy

/-- The url after the loop's in-place rewriting: query/hash cut, one
`.html`/`.md` suffix stripped, `index` appended after a trailing slash. -/
def normalizeLinkUrl (url : String) : String :=
  let u1 := stripHtmlMdSuffix (stripQueryHash url)
  if strEndsWith u1 "/" then u1 ++ "index" else u1

/-- The resolved candidate page path: absolute links lose the leading
slash, relative links go through the path module; then
`decodeURIComponent(slash(·))`, then the rewrite inverse is consulted
(falling back to the plain resolution when the lookup misses or the
shortened value is empty, mirroring `?.slice(0, -3) || resolved`). -/
def resolveLink (env : LinkEnv) (url2 : String) : String :=
  let base := if strStartsWith url2 "/" then dropLeftStr 1 url2
              else env.fsResolve url2
  let r0 := env.decodeComp (slash base)
  match env.rewritesInv (r0 ++ ".md") with
  | some v =>
    let s := dropRightStr 3 v
    if s = "" then r0 else s
  | none => r0

/-- One iteration of the dead-link loop of `createMarkdownToVueRenderFn`:
`true` exactly when `recordDeadLink` is called for this url. -/
def checkDeadLink (env : LinkEnv) (url : String) : Bool :=
  if !treatAsHtml env.pathname then false
  else
    let url2 := normalizeLinkUrl url
    let resolved := resolveLink env url2
    !(env.pages.contains resolved) && !(env.publicExists resolved) &&
      !(shouldIgnoreDeadLink env.policy url2)

/-- The `renderStart` hook of the vitepress plugin (src/node/plugin.ts),
restricted to its observable outcome: a single aggregate error naming the
number of dead links, or success when there are none.  A dead link is a
`(url, file)` pair. -/
def renderStartCheck (deadLinks : List (String × String)) : Except String Unit :=
  if deadLinks.length > 0 then
    Except.error (toString deadLinks.length ++ " dead link(s) found.")
  else Except.ok ()

/-- Coverage by the `ignoreDeadLinks` policy exactly as the claim enumerates
it (spec-side definition): `true` disables all reporting, a string entry
must equal the link exactly, a pattern entry must match it, a predicate
entry must return true for it.  No other configuration covers anything. -/
def claimCovers (policy : IgnorePolicy) (url : String) : Bool :=
  match policy with
  | .all => true
  | .entries es =>
    es.any fun e =>
      match e with
      | .str s => url == s
      | .pattern t => t url
      | .pred f => f url
      | .other => false
  | _ => false

/-- Coverage as amended: additionally, the `'localhostLinks'` configuration
covers every link whose scheme-stripped form starts with `//localhost`. -/
def claimCoversAmended (policy : IgnorePolicy) (url : String) : Bool :=
  match policy with
  | .all => true
  | .localhostLinks => strStartsWith (stripExternalScheme url) "//localhost"
  | .entries es =>
    es.any fun e =>
      match e with
      | .str s => url == s
      | .pattern t => t url
      | .pred f => f url
      | .other => false
  | .unset => false

/-! ## `resolveRewrites` (src/node/plugins/rewritesPlugin.ts)

One entry of `rewriteRules` is the composition of `match(from)` and
`compile('/' + to)(...).slice(1)`: a function from a page path to the
rewritten destination when the pattern fires.  `path-to-regexp` is an
external collaborator, so a rule is embedded as that composed function;
`staticRule` is the concrete instance a parameter-free pattern produces
(`match` on a literal string is exact comparison, `compile` of a literal
target is constant). -/

def RewriteRule := String → Option String

/-- The rule produced by a literal rewrite `from: to` with no pattern
parameters. -/
def staticRule (src dst : String) : RewriteRule :=
  fun page => if page = src then some dst else none

/-- The inner `for (const { matchUrl, toPath } of rewriteRules)` loop:
the first rule that fires wins (`break`). -/
def firstRuleMatch (rules : List RewriteRule) (page : String) : Option String :=
  match rules with
  | [] => none
  | r :: rs =>
    match r page with
    | some dest => some dest
    | none => firstRuleMatch rs page

/-- JavaScript object property assignment `obj[k] = v` on an association
list with unique keys: replace the binding in place, else append. -/
def upsert : List (String × String) → String → String → List (String × String)
  | [], k, v => [(k, v)]
  | (k', v') :: rest, k, v =>
    if k' = k then (k, v) :: rest else (k', v') :: upsert rest k v

/-- The two maps built by `resolveRewrites`: `pageToRewrite` and its
claimed inverse `rewriteToPage`. -/
structure RewriteMaps where
  map : List (String × String)
  inv : List (String × String)

/-- The body of the `for (const page of pages)` loop. -/
def addPageRewrite (rules : List RewriteRule) (maps : RewriteMaps)
    (page : String) : RewriteMaps :=
  match firstRuleMatch rules page with
  | some dest => ⟨upsert maps.map page dest, upsert maps.inv dest page⟩
  | none => maps

/-- Model of `resolveRewrites(pages, userRewrites)`.  (When the rule list is empty
the source skips the loop entirely; folding with `firstRuleMatch = none`
throughout yields the same empty maps.) -/
def resolveRewrites (pages : List String) (rules : List RewriteRule) :
    RewriteMaps :=
  pages.foldl (addPageRewrite rules) ⟨[], []⟩

/-- The last page of the list whose first matching rule rewrites it to
`dest` (the page whose `inv` binding survives the overwrites). -/
def lastMatchingPage (rules : List RewriteRule) (dest : String) :
    List String → Option String
  | [] => none
  | p :: ps =>
    match lastMatchingPage rules dest ps with
    | some q => some q
    | none => if firstRuleMatch rules p = some dest then some p else none

/-! ## Lean/full page module selection (src/client/app/index.ts)

`newRouter` closes over `isInitialPageLoad` (initialised to `inBrowser`; the
embedding models a browser client session, so it starts `true`) and
`initialPath` (initially unassigned).  `pathToFile`
(src/client/app/utils.ts) is an external collaborator of this closure and
is passed as a parameter. -/

structure LoaderState where
  isInitialPageLoad : Bool
  initialPath : Option String
deriving DecidableEq

def initLoaderState : LoaderState := ⟨true, none⟩

/-- The outcome of one invocation: the module path actually imported
(`none` when `pathToFile` yields a falsy path, in which case no import
happens) and whether the lean branch was taken. -/
structure LoadDecision where
  requested : Option String
  usedLean : Bool
deriving DecidableEq

/-- Model of `pageFilePath.replace(/\.js$/, '.lean.js')`. -/
def replaceJsWithLeanJs (fn : String) : String :=
  if strEndsWith fn ".js" then dropRightStr 3 fn ++ ".lean.js" else fn

/-- One invocation of the page loader `newRouter` passes to `createRouter`:
record `initialPath` on the first load, take the lean branch when this is
the first load or the target equals the initially loaded path, and clear
`isInitialPageLoad` at the end of every invocation. -/
def loadPageFile (pathToFile : String → String) (st : LoaderState)
    (path : String) : LoadDecision × LoaderState :=
  let pageFilePath := pathToFile path
  if pageFilePath = "" then
    (⟨none, false⟩, ⟨false, st.initialPath⟩)
  else
    let initialPath :=
      if st.isInitialPageLoad then some pageFilePath else st.initialPath
    let lean := st.isInitialPageLoad || initialPath == some pageFilePath
    let requested :=
      if lean then replaceJsWithLeanJs pageFilePath else pageFilePath
    (⟨some requested, lean⟩, ⟨false, initialPath⟩)

/-- A session: the decisions of a sequence of loads, threading the state. -/
def runLoads (pathToFile : String → String) :
    LoaderState → List String → List LoadDecision
  | _, [] => []
  | st, p :: ps =>
    let r := loadPageFile pathToFile st p
    r.1 :: runLoads pathToFile r.2 ps

/-! ## `resolvePages` (src/node/plugins/dynamicRoutesPlugin.ts)

`fast-glob` (the file enumeration) and the `.paths` loader modules are
external collaborators: the enumerated (unordered) file list and the
per-template expansion function are parameters.  `allMarkdownFiles.sort()`
compares strings lexicographically; page paths are ASCII, where the
JavaScript code-unit order coincides with the code-point order below. -/

/-- Lexicographic comparison of character lists. -/
def lexLe : List Char → List Char → Bool
  | [], _ => true
  | _ :: _, [] => false
  | a :: as, b :: bs =>
    if a < b then true else if a = b then lexLe as bs else false

/-- The string order used by `.sort()`. -/
def strLe (s t : String) : Prop := lexLe s.data t.data = true

instance : DecidableRel strLe := fun s t => by
  unfold strLe
  infer_instance

/-- Model of `allMarkdownFiles.sort()` (a stable comparison sort; any sorting
algorithm yields the same list for a total, antisymmetric, transitive
order). -/
def sortStrings (l : List String) : List String := List.insertionSort strLe l

/-- a `\w` character. -/
def wordChar (c : Char) : Bool := c.isAlphanum || c == '_'

/-- Model of `dynamicRouteRE.test(file)` with `dynamicRouteRE = /\[(\w+?)\]/g`
(after `lastIndex` is reset): does the text contain `[`, one or more word
characters, `]`?  Because `]` is not a word character, the lazy group
matches exactly when a maximal word-character run after some `[` is
non-empty and followed by `]`. -/
def hasDynSeg : List Char → Bool
  | [] => false
  | '[' :: rest =>
    (rest.takeWhile wordChar ≠ [] &&
      (rest.drop (rest.takeWhile wordChar).length).head? == some ']')
      || hasDynSeg rest
  | _ :: rest => hasDynSeg rest

/-- Is the file a dynamic-route template? -/
def isDynamicRouteFile (s : String) : Bool := hasDynSeg s.data

/-- Model of `resolvePages(srcDir, userConfig, logger)`, restricted to the page
list it returns: sort the enumerated content files, partition them into
static pages and dynamic-route templates (preserving the sorted order, as
the single `forEach` push does), then append the expanded dynamic routes
after the static pages.  `expand` stands for `resolveDynamicRoutes`: the
concrete paths generated for one template, in generation order ( `[]` for a
template whose paths module is missing or invalid, which the source skips
with a warning). -/
def resolvePagesModel (files : List String) (expand : String → List String) :
    List String :=
  let allSorted := sortStrings files
  let statics := allSorted.filter (fun f => !isDynamicRouteFile f)
  let dyn := allSorted.filter (fun f => isDynamicRouteFile f)
  statics ++ dyn.flatMap expand

/-! ## Client `generateBundle` post-processing (src/node/plugin.ts)

A Rollup output entry is embedded with the fields the hook reads.  The
bundle object is an association list keyed by output name; the hook walks
the existing keys (keys added during the walk are not re-visited by the
JavaScript `for ... in` loop, which is what keeps the freshly added lean
chunks from being processed again). -/

structure OutChunk where
  /-- Model of `chunk.type === 'chunk'`. -/
  isChunk : Bool
  isEntry : Bool
  facadeModuleId : Option String
  name : String
  fileName : String
  preliminaryFileName : String
  code : String
deriving DecidableEq

/-- Model of `isPageChunk`: an entry chunk whose facade module is a `.md` file. -/
def isPageChunk (c : OutChunk) : Bool :=
  c.isChunk && c.isEntry &&
    (match c.facadeModuleId with
     | some f => strEndsWith f ".md"
     | none => false)

/-- a `[-\w]` character of `hashRE = /\.([-\w]+)\.js$/`. -/
def hashChar (c : Char) : Bool := c.isAlphanum || c == '_' || c == '-'

/-- Model of `chunk.fileName.match(hashRE)![1]`: the run of `[-\w]` characters
between the last dot and the trailing `.js` (meaningful whenever the regex
matches; on a non-matching filename the source would crash on the non-null
assertion). -/
def extractHash (fn : String) : String :=
  String.mk (((fn.data.reverse.drop 3).takeWhile hashChar).reverse)

/-- The three JavaScript quote characters of `staticStripRE`. -/
def isQuoteChar (c : Char) : Bool :=
  c == Char.ofNat 39 || c == '"' || c == Char.ofNat 96

def vpStaticStart : List Char := "__VP_STATIC_START__".data

def vpStaticEnd : List Char := "__VP_STATIC_END__".data

/-- The lazy `[^]*?__VP_STATIC_END__['"\x60]` scan: length of the shortest
prefix ending with the end marker followed by a quote character. -/
def findStaticEnd : List Char → Option Nat
  | [] => none
  | c :: cs =>
    if vpStaticEnd.isPrefixOf (c :: cs) &&
        (match ((c :: cs).drop vpStaticEnd.length).head? with
         | some q => isQuoteChar q
         | none => false) then
      some (vpStaticEnd.length + 1)
    else (findStaticEnd cs).map (· + 1)

/-- Fuelled worker for
`code.replace(staticStripRE, '""')` with
`staticStripRE = /['"\x60]__VP_STATIC_START__[^]*?__VP_STATIC_END__['"\x60]/g`:
each sentinel-delimited region (including its delimiting quotes) becomes
the two-character empty string literal, scanning left to right without
rescanning replacements. -/
def stripStaticAux : Nat → List Char → List Char
  | 0, l => l
  | _, [] => []
  | fuel + 1, c :: cs =>
    if isQuoteChar c && vpStaticStart.isPrefixOf cs then
      match findStaticEnd (cs.drop vpStaticStart.length) with
      | some n =>
        '"' :: '"' :: stripStaticAux fuel (cs.drop (vpStaticStart.length + n))
      | none => c :: stripStaticAux fuel cs
    else c :: stripStaticAux fuel cs

/-- Model of `code.replace(staticStripRE, '""')`. -/
def stripStaticStr (code : String) : String :=
  String.mk (stripStaticAux code.data.length code.data)

/-- Fuelled worker for
`code.replace(/__VP_STATIC_(START|END)__/g, '')`: delete every occurrence
of either marker, scanning left to right. -/
def removeMarkersAux : Nat → List Char → List Char
  | 0, l => l
  | _, [] => []
  | fuel + 1, c :: cs =>
    if vpStaticStart.isPrefixOf (c :: cs) then
      removeMarkersAux fuel ((c :: cs).drop vpStaticStart.length)
    else if vpStaticEnd.isPrefixOf (c :: cs) then
      removeMarkersAux fuel ((c :: cs).drop vpStaticEnd.length)
    else c :: removeMarkersAux fuel cs

/-- Model of `code.replace(staticRestoreRE, '')`. -/
def removeMarkersStr (code : String) : String :=
  String.mk (removeMarkersAux code.data.length code.data)

/-- The lean variant injected under the key `name + '-lean'`: same chunk
with `.js` filenames renamed to `.lean.js` and the static regions stripped
to empty string literals. -/
def leanChunkOf (c : OutChunk) : OutChunk :=
  { c with
    fileName := replaceJsWithLeanJs c.fileName
    preliminaryFileName := replaceJsWithLeanJs c.preliminaryFileName
    code := stripStaticStr c.code }

/-- The client (`ssr = false`) branch of the `generateBundle` hook: for
every page chunk, record `chunk.name.toLowerCase() -> hash` in the
page-to-hash map, add the lean variant beside it, and remove the static
markers from the original chunk; other entries pass through.  Returns the
updated bundle and the recorded hash entries. -/
def generateBundleClient :
    List (String × OutChunk) → List (String × OutChunk) × List (String × String)
  | [] => ([], [])
  | (n, c) :: rest =>
    let r := generateBundleClient rest
    if isPageChunk c then
      ((n, { c with code := removeMarkersStr c.code }) ::
        (n ++ "-lean", leanChunkOf c) :: r.1,
       (lowerStr c.name, extractHash c.fileName) :: r.2)
    else ((n, c) :: r.1, r.2)

/-! ## Router: in-flight `loadPage` calls of `createRouter`
(src/client/app/router.ts)

The success path of `loadPage` is modelled as an event system over the
closure state `(route, latestPendingPath)` plus the set of in-flight
module imports.  A `start` event is the synchronous prefix of a call (no hooks
installed): it records `latestPendingPath = targetLoc.pathname` and
registers the pending import together with the module it will eventually
deliver.  A `resolve` event is that import resolving: the call continues
after `await loadPageModule(pendingPath)` and mutates the Route only when
`latestPendingPath === pendingPath` still holds, clearing the token;
otherwise it does nothing and raises no error.  Components and page data
are abstract identifiers. -/

structure PageModuleC where
  comp : Nat
  data : Nat
deriving DecidableEq

/-- The shared reactive `Route` record (`component = none`, `data = none`
stands for the initial default not-found route). -/
structure NavRoute where
  path : String
  component : Option Nat
  data : Option Nat
deriving DecidableEq

structure NavState where
  route : NavRoute
  latest : Option String
  loads : List (String × PageModuleC × Bool)
deriving DecidableEq

inductive NavEv where
  | start (pathname : String) (m : PageModuleC)
  | resolve (i : Nat)

def navStep (st : NavState) : NavEv → NavState
  | .start p m =>
    { st with latest := some p, loads := st.loads ++ [(p, m, false)] }
  | .resolve i =>
    match st.loads[i]? with
    | some (p, m, false) =>
      let loads := st.loads.set i (p, m, true)
      if st.latest = some p then
        { route := ⟨p, some m.comp, some m.data⟩, latest := none,
          loads := loads }
      else { st with loads := loads }
    | _ => st

def navRun (st : NavState) (es : List NavEv) : NavState := es.foldl navStep st

/-! ## Router: failure handling of one `loadPage` call
(src/client/app/router.ts)

One sequential `loadPage(href)` call (browser, no hooks, no concurrent
calls), with the module loader and the hash-map refetch as oracles. -/

/-- A resolved page module: `default` export (absent models the
`Invalid route component` throw) and `__pageData`. -/
structure PageModuleL where
  comp : Option Nat
  data : Nat
deriving DecidableEq

inductive RouteData where
  | page (d : Nat)
  | notFound (relativePath : String)
deriving DecidableEq

structure LPRoute where
  path : String
  component : Option Nat
  data : RouteData
deriving DecidableEq

structure LPState where
  route : LPRoute
  latest : Option String
deriving DecidableEq

/-- The oracles of one call: the module delivered by
`await loadPageModule(pendingPath)` on the initial (`false`) and the retry
(`true`) attempt — `none` models both a `null` return (`Page not found`
throw) and an import rejection; whether refetching `hashmap.json` succeeds;
and the router's `fallbackComponent`. -/
structure LoadEnv where
  loadResult : Bool → Option PageModuleL
  fetchHashOk : Bool
  fallback : Option Nat

/-- The catch block's relative path:
`pendingPath.replace(/(^|\/)$/, '$1index').replace(/(\.html)?$/, '.md').replace(/^\//, '')`. -/
def notFoundRelativePath (pendingPath : String) : String :=
  let s1 :=
    if pendingPath = "" || strEndsWith pendingPath "/" then
      pendingPath ++ "index"
    else pendingPath
  let s2 :=
    if strEndsWith s1 ".html" then dropRightStr 5 s1 ++ ".md"
    else s1 ++ ".md"
  if strStartsWith s2 "/" then dropLeftStr 1 s2 else s2

/-- The try block of one invocation, starting from
`latestPendingPath = targetLoc.pathname`: `.ok` when control leaves the try
normally (successful mutation, or a stale result silently skipped),
`.error` at either throw site, carrying the state at the throw. -/
def loadPageTry (res : Option PageModuleL) (pendingPath : String)
    (st0 : LPState) : Except LPState LPState :=
  let st := { st0 with latest := some pendingPath }
  match res with
  | none => .error st
  | some m =>
    if st.latest = some pendingPath then
      let st1 := { st with latest := none }
      match m.comp with
      | none => .error st1
      | some comp =>
        .ok { st1 with route := ⟨pendingPath, some comp, .page m.data⟩ }
    else .ok st

/-- The not-found fallback at the end of the catch block, guarded by the
`latestPendingPath === pendingPath` check: fallback component and
`{...notFoundPageData, relativePath}` (the constant not-found fields are
implicit in the `notFound` constructor). -/
def notFoundUpdate (env : LoadEnv) (pendingPath : String) (st : LPState) :
    LPState :=
  if st.latest = some pendingPath then
    { route := ⟨pendingPath, env.fallback,
        .notFound (notFoundRelativePath pendingPath)⟩,
      latest := none }
  else st

/-- The retry invocation (`isRetry = true`): its catch skips the refetch
branch and falls through to the not-found fallback.  Returns the final
state and the number of module-load attempts (always one). -/
def loadPageRetry (env : LoadEnv) (pendingPath : String) (st : LPState) :
    LPState × Nat :=
  match loadPageTry (env.loadResult true) pendingPath st with
  | .ok st1 => (st1, 1)
  | .error st1 => (notFoundUpdate env pendingPath st1, 1)

/-- A full `loadPage(href)` call (`isRetry = false`): on a throw from the
try block, refetch the hash map and retry once, returning immediately
after the retry; when the refetch itself fails, fall through to the
not-found fallback.  Returns the final state and the total number of
module-load attempts; no branch propagates an error to the caller. -/
def loadPageCall (env : LoadEnv) (pendingPath : String) (st : LPState) :
    LPState × Nat :=
  match loadPageTry (env.loadResult false) pendingPath st with
  | .ok st1 => (st1, 1)
  | .error st1 =>
    if env.fetchHashOk then
      let r := loadPageRetry env pendingPath st1
      (r.1, 1 + r.2)
    else (notFoundUpdate env pendingPath st1, 1)

end VP

namespace VP

/-! ## Theorems -/

/-- Characterization of `hasTag` as a proposition. -/
theorem hasTag_iff (curr : List HeadTag) (t : HeadTag) :
    hasTag curr t = true ↔ (t.tag = "meta" ∧ HeadCovered curr t) := by
  unfold hasTag HeadCovered
  by_cases htag : t.tag = "meta"
  · rw [if_neg (by simp [htag])]
    cases h : t.attrs.head? with
    | none => simp [htag, h]
    | some kv =>
      obtain ⟨k, v⟩ := kv
      simp only [h, List.any_eq_true, Bool.and_eq_true, beq_iff_eq, htag,
        Option.some.injEq, Prod.mk.injEq, true_and]
      constructor
      · rintro ⟨u, hu, h1, h2⟩
        exact ⟨k, v, ⟨rfl, rfl⟩, u, hu, h1, h2⟩
      · rintro ⟨k', v', ⟨rfl, rfl⟩, u, hu, h1, h2⟩
        exact ⟨u, hu, h1, h2⟩
  · rw [if_pos (by simp [htag])]
    simp [htag]

/-- C9: `mergeHead` only ever removes `meta` tags from the earlier list:
the result is the tags of `prev` not matched by `curr` followed by all of
`curr`; every non-`meta` tag of `prev` survives into the result; a `meta`
tag of `prev` is dropped from the surviving-prev portion exactly when some
`meta` tag of `curr` has the same first attribute key and value; and every
tag of `curr` appears in the result. -/
theorem mergeHead_only_removes_meta (prev curr : List HeadTag) :
    mergeHead prev curr = prev.filter (fun t => !hasTag curr t) ++ curr ∧
    (∀ t ∈ prev, t.tag ≠ "meta" → t ∈ mergeHead prev curr) ∧
    (∀ t ∈ prev, t.tag = "meta" →
      (t ∉ prev.filter (fun u => !hasTag curr u) ↔ HeadCovered curr t)) ∧
    (∀ t ∈ curr, t ∈ mergeHead prev curr) := by
  refine ⟨rfl, ?_, ?_, ?_⟩
  · intro t ht hmeta
    have : hasTag curr t = false := by
      rcases h : hasTag curr t with _ | _
      · rfl
      · exact absurd ((hasTag_iff curr t).mp h).1 hmeta
    exact List.mem_append_left _ (List.mem_filter.mpr ⟨ht, by simp [this]⟩)
  · intro t ht hmeta
    rw [List.mem_filter]
    constructor
    · intro hnot
      rcases h : hasTag curr t with _ | _
      · exact absurd ⟨ht, by simp [h]⟩ hnot
      · exact ((hasTag_iff curr t).mp h).2
    · intro hcov hmem
      have : hasTag curr t = true := (hasTag_iff curr t).mpr ⟨hmeta, hcov⟩
      simp [this] at hmem
  · intro t ht
    exact List.mem_append_right _ ht

/-- C9 witness: a concrete `link` tag of `prev` that also occurs verbatim in
`curr` still survives the merge. -/
theorem mergeHead_only_removes_meta_witness :
    (⟨"link", [("rel", "icon")], ""⟩ : HeadTag) ∈
      mergeHead
        [⟨"link", [("rel", "icon")], ""⟩, ⟨"meta", [("name", "d")], ""⟩]
        [⟨"link", [("rel", "icon")], ""⟩, ⟨"meta", [("name", "d")], "x"⟩] :=
  (mergeHead_only_removes_meta _ _).2.1 _ (by decide) (by decide)

/-- C6 counterexample: with site title `"Site"`, page title `"Site"` and the
default (undefined) template, the source returns `"Site"` while the rule as
claimed returns `"Site | Site"`. -/
theorem createTitle_counterexample :
    createTitle "Site" .unset "Site" .unset = "Site" ∧
    claimTitleRule "Site" .unset "Site" .unset = "Site | Site" ∧
    ("Site" : String) ≠ "Site | Site" := by
  refine ⟨by decide, by decide, by decide⟩

/-- C6 (amended): `createTitle` agrees with the claimed rule amended by the
duplicate-suffix escape, on all inputs; and the four concrete examples of
the claim hold: default template gives `"Page | Site"`, template `false`
gives `"Page"`, template `":title — Custom"` gives `"Page — Custom"`, and a
page title equal to the site title with the template string equal to the
site title gives the bare title. -/
theorem createTitle_spec (siteTitle pageTitle : String)
    (siteTpl pageTpl : TitleTemplate) :
    createTitle siteTitle siteTpl pageTitle pageTpl =
      claimTitleRuleAmended siteTitle siteTpl pageTitle pageTpl ∧
    createTitle "Site" .unset "Page" .unset = "Page | Site" ∧
    createTitle "Site" .unset "Page" (.flag false) = "Page" ∧
    createTitle "Site" .unset "Page" (.str ":title — Custom") = "Page — Custom" ∧
    createTitle "Site" (.str "Site") "Site" (.str "Site") = "Site" := by
  refine ⟨?_, by decide, by decide, by decide, by decide⟩
  · unfold createTitle claimTitleRuleAmended
    cases pageTpl with
    | unset =>
      cases siteTpl with
      | unset => simp [templateHasTitleToken, templateStr, createTitleTemplate, claimSuffix]
      | flag b =>
        cases b <;>
          simp [templateHasTitleToken, templateStr, createTitleTemplate, claimSuffix]
      | str t =>
        by_cases h : strContains t ":title" = true <;>
          simp [templateHasTitleToken, templateStr, createTitleTemplate, claimSuffix, h,
            eq_comm (a := siteTitle) (b := t)]
    | flag b =>
      cases b <;>
        simp [templateHasTitleToken, templateStr, createTitleTemplate, claimSuffix]
    | str t =>
      by_cases h : strContains t ":title" = true <;>
        simp [templateHasTitleToken, templateStr, createTitleTemplate, claimSuffix, h,
          eq_comm (a := siteTitle) (b := t)]

/-- Helper: the source's ignore test coincides with the amended coverage
enumeration. -/
theorem shouldIgnore_eq_claimCoversAmended (policy : IgnorePolicy) (url : String) :
    shouldIgnoreDeadLink policy url = claimCoversAmended policy url := by
  cases policy <;> rfl

/-- C8 (amended): dead links are reported in aggregate as a single fatal
error at the start of the render phase, naming the number of dead links
found; and a link that reaches the dead-link check (an HTML-like pathname)
is recorded exactly when it resolves to no known page, to no public asset,
and the `ignoreDeadLinks` policy does not cover it — where coverage is the
claimed enumeration extended with the `'localhostLinks'` configuration,
which covers links whose scheme-stripped form starts with `//localhost`. -/
theorem deadLink_report_spec :
    (∀ dls : List (String × String), dls ≠ [] →
      renderStartCheck dls =
        Except.error (toString dls.length ++ " dead link(s) found.")) ∧
    renderStartCheck [] = Except.ok () ∧
    (∀ (env : LinkEnv) (url : String), treatAsHtml env.pathname = true →
      (checkDeadLink env url = true ↔
        (env.pages.contains (resolveLink env (normalizeLinkUrl url)) = false ∧
         env.publicExists (resolveLink env (normalizeLinkUrl url)) = false ∧
         claimCoversAmended env.policy (normalizeLinkUrl url) = false))) := by
  refine ⟨?_, rfl, ?_⟩
  · intro dls h
    unfold renderStartCheck
    rw [if_pos (List.length_pos.mpr h)]
  · intro env url h
    unfold checkDeadLink
    simp [h, shouldIgnore_eq_claimCoversAmended, Bool.and_eq_true,
      Bool.not_eq_true', and_assoc]

/-- C8 witness: two dead links produce the aggregate error message, and a
link resolving to no page is recorded under the unset policy. -/
theorem deadLink_report_spec_witness :
    renderStartCheck [("/missing", "a.md"), ("/gone", "b.md")] =
      Except.error "2 dead link(s) found." ∧
    checkDeadLink
      ⟨"/missing", id, id, fun _ => none, ["index"], fun _ => false, .unset⟩
      "/missing" = true := by
  constructor
  · exact deadLink_report_spec.1 _ (by decide)
  · exact (deadLink_report_spec.2.2 _ "/missing" (by decide)).mpr
      ⟨by decide, by decide, by decide⟩

/-- C8 counterexample: with `ignoreDeadLinks: 'localhostLinks'`, the dead
link `http://localhost:3000/x` is silently excluded from the report (the
same link is recorded under the unset policy), yet none of the claim's
enumerated coverage cases — boolean true, string entry, pattern entry,
predicate entry — covers it; so exclusion is not "exactly when" the claimed
enumeration covers a link. -/
theorem deadLink_report_counterexample :
    checkDeadLink
      ⟨"/x", fun _ => "x", id, fun _ => none, [], fun _ => false,
        .localhostLinks⟩ "http://localhost:3000/x" = false ∧
    checkDeadLink
      ⟨"/x", fun _ => "x", id, fun _ => none, [], fun _ => false, .unset⟩
      "http://localhost:3000/x" = true ∧
    claimCovers .localhostLinks "http://localhost:3000/x" = false := by
  refine ⟨by decide, by decide, by decide⟩

/-- C10: a link whose URL pathname carries a known non-HTML extension (per
the `treatAsHtml` extension set) is skipped before any resolution and never
recorded as dead, for every environment — in particular regardless of
whether the target exists in the page set or the public directory. -/
theorem nonHtml_links_never_dead (env : LinkEnv) (url : String)
    (h : knownExtensions.contains (lowerStr (afterLastDot env.pathname)) = true) :
    checkDeadLink env url = false := by
  have hfalse : treatAsHtml env.pathname = false := by
    unfold treatAsHtml
    rw [h]
    rfl
  unfold checkDeadLink
  rw [hfalse]
  simp

/-- C10 witness: a `.png` link pointing at a file that exists neither in the
page set nor in the public directory is still not recorded. -/
theorem nonHtml_links_never_dead_witness :
    checkDeadLink
      ⟨"/a/img.png", id, id, fun _ => none, [], fun _ => false, .unset⟩
      "/a/img.png" = false :=
  nonHtml_links_never_dead _ _ (by decide)

/-- Helper: looking up the key just written. -/
theorem lookup_upsert_self (m : List (String × String)) (k v : String) :
    List.lookup k (upsert m k v) = some v := by
  induction m with
  | nil => simp [upsert]
  | cons kv rest ih =>
    obtain ⟨a, b⟩ := kv
    by_cases ha : a = k
    · subst ha
      simp [upsert]
    · simp only [upsert, if_neg ha, List.lookup_cons]
      rw [beq_false_of_ne (fun e => ha e.symm)]
      exact ih

/-- Helper: writing one key leaves the other lookups unchanged. -/
theorem lookup_upsert_ne (m : List (String × String)) (k v k2 : String)
    (h : k2 ≠ k) : List.lookup k2 (upsert m k v) = List.lookup k2 m := by
  induction m with
  | nil => simp [upsert, List.lookup_cons, beq_false_of_ne h]
  | cons kv rest ih =>
    obtain ⟨a, b⟩ := kv
    by_cases ha : a = k
    · subst ha
      simp [upsert, List.lookup_cons, beq_false_of_ne h]
    · simp only [upsert, if_neg ha, List.lookup_cons]
      cases hk2 : k2 == a with
      | true => rfl
      | false => exact ih

/-- Helper: the `map` side of the fold over pages. -/
theorem foldl_rewrite_map_lookup (rules : List RewriteRule) (ps : List String)
    (acc : RewriteMaps) (page : String) :
    List.lookup page (List.foldl (addPageRewrite rules) acc ps).map =
      if page ∈ ps ∧ (firstRuleMatch rules page).isSome then
        firstRuleMatch rules page
      else List.lookup page acc.map := by
  induction ps generalizing acc with
  | nil => simp
  | cons p ps ih =>
    rw [List.foldl_cons, ih]
    by_cases hmem : page ∈ ps ∧ (firstRuleMatch rules page).isSome
    · rw [if_pos hmem, if_pos ⟨List.mem_cons_of_mem _ hmem.1, hmem.2⟩]
    · rw [if_neg hmem]
      by_cases hp : page = p
      · subst hp
        cases hfm : firstRuleMatch rules page with
        | some d =>
          rw [if_pos ⟨List.mem_cons_self _ _, by simp⟩]
          simp [addPageRewrite, hfm, lookup_upsert_self]
        | none =>
          rw [if_neg (by simp)]
          simp [addPageRewrite, hfm]
      · have hcond : ¬(page ∈ p :: ps ∧ (firstRuleMatch rules page).isSome) := by
          rintro ⟨hin, hs⟩
          rcases List.mem_cons.mp hin with he | hin2
          · exact hp he
          · exact hmem ⟨hin2, hs⟩
        rw [if_neg hcond]
        cases hfm : firstRuleMatch rules p with
        | some d => simp [addPageRewrite, hfm, lookup_upsert_ne _ _ _ _ hp]
        | none => simp [addPageRewrite, hfm]

/-- Helper: the `inv` side of the fold over pages: the surviving binding for
a destination is the last page rewritten to it. -/
theorem foldl_rewrite_inv_lookup (rules : List RewriteRule) (ps : List String)
    (acc : RewriteMaps) (dest : String) :
    List.lookup dest (List.foldl (addPageRewrite rules) acc ps).inv =
      (match lastMatchingPage rules dest ps with
       | some q => some q
       | none => List.lookup dest acc.inv) := by
  induction ps generalizing acc with
  | nil => simp [lastMatchingPage]
  | cons p ps ih =>
    rw [List.foldl_cons, ih]
    simp only [lastMatchingPage]
    cases hl : lastMatchingPage rules dest ps with
    | some q => simp
    | none =>
      simp only []
      by_cases hp : firstRuleMatch rules p = some dest
      · rw [if_pos hp]
        simp [addPageRewrite, hp, lookup_upsert_self]
      · rw [if_neg hp]
        cases hfm : firstRuleMatch rules p with
        | none => simp [addPageRewrite, hfm]
        | some d =>
          have hd : dest ≠ d := by
            intro e
            exact hp (by rw [hfm, e])
          simp [addPageRewrite, hfm, lookup_upsert_ne _ _ _ _ hd]

/-- Helper: a surviving `inv` binding comes from a page of the list that the
rules rewrite to that destination. -/
theorem lastMatchingPage_sound (rules : List RewriteRule) (dest : String) :
    ∀ ps q, lastMatchingPage rules dest ps = some q →
      q ∈ ps ∧ firstRuleMatch rules q = some dest := by
  intro ps
  induction ps with
  | nil => intro q h; simp [lastMatchingPage] at h
  | cons p ps ih =>
    intro q h
    simp only [lastMatchingPage] at h
    cases hl : lastMatchingPage rules dest ps with
    | some r =>
      rw [hl] at h
      simp only [] at h
      injection h with hrq
      subst hrq
      obtain ⟨h1, h2⟩ := ih _ hl
      exact ⟨List.mem_cons_of_mem _ h1, h2⟩
    | none =>
      rw [hl] at h
      simp only [] at h
      by_cases hp : firstRuleMatch rules p = some dest
      · rw [if_pos hp] at h
        injection h with hpq
        subst hpq
        exact ⟨List.mem_cons_self _ _, hp⟩
      · rw [if_neg hp] at h
        cases h

/-- Helper: when the matched page is unique for its destination, it is the
surviving binding. -/
theorem lastMatchingPage_unique (rules : List RewriteRule) (dest : String)
    (ps : List String) (page : String) (hmem : page ∈ ps)
    (hmatch : firstRuleMatch rules page = some dest)
    (huniq : ∀ q ∈ ps, firstRuleMatch rules q = some dest → q = page) :
    lastMatchingPage rules dest ps = some page := by
  induction ps with
  | nil => cases hmem
  | cons p ps ih =>
    simp only [lastMatchingPage]
    rcases List.mem_cons.mp hmem with hpe | hmem2
    · subst hpe
      cases hl : lastMatchingPage rules dest ps with
      | some q =>
        obtain ⟨hq1, hq2⟩ := lastMatchingPage_sound rules dest ps q hl
        rw [huniq q (List.mem_cons_of_mem _ hq1) hq2]
      | none => rw [if_pos hmatch]
    · rw [ih hmem2 (fun q hq hfq => huniq q (List.mem_cons_of_mem _ hq) hfq)]

/-- Helper: a destination produced by no page has no surviving binding. -/
theorem lastMatchingPage_none (rules : List RewriteRule) (dest : String)
    (ps : List String) (h : ∀ q ∈ ps, firstRuleMatch rules q ≠ some dest) :
    lastMatchingPage rules dest ps = none := by
  induction ps with
  | nil => rfl
  | cons p ps ih =>
    simp only [lastMatchingPage]
    rw [ih (fun q hq => h q (List.mem_cons_of_mem _ hq))]
    rw [if_neg (h p (List.mem_cons_self _ _))]

/-- C7 (amended): `resolveRewrites` applies first-match-wins — the map binds
every listed page to the result of the first rule that fires on it, and
binds nothing else; the round-trip law `inv (map page) = page` holds for a
matched page provided no other listed page is rewritten to the same
destination (in particular whenever the rewrite targets are injective on
the matched pages); pages rewritten to by nothing are absent from the
inverse map (so pages matched by no rule pass through unchanged in both
directions as long as no other page is rewritten onto their path). -/
theorem resolveRewrites_first_match_roundtrip (pages : List String)
    (rules : List RewriteRule) :
    (∀ page ∈ pages,
      List.lookup page (resolveRewrites pages rules).map =
        firstRuleMatch rules page) ∧
    (∀ page, page ∉ pages →
      List.lookup page (resolveRewrites pages rules).map = none) ∧
    (∀ page ∈ pages, ∀ dest, firstRuleMatch rules page = some dest →
      (∀ q ∈ pages, firstRuleMatch rules q = some dest → q = page) →
      List.lookup dest (resolveRewrites pages rules).inv = some page) ∧
    (∀ s, (∀ q ∈ pages, firstRuleMatch rules q ≠ some s) →
      List.lookup s (resolveRewrites pages rules).inv = none) := by
  refine ⟨?_, ?_, ?_, ?_⟩
  · intro page hmem
    rw [resolveRewrites, foldl_rewrite_map_lookup]
    cases hfm : firstRuleMatch rules page with
    | some d => rw [if_pos ⟨hmem, by simp⟩]
    | none =>
      rw [if_neg (by simp)]
      simp
  · intro page hmem
    rw [resolveRewrites, foldl_rewrite_map_lookup]
    rw [if_neg (by rintro ⟨h1, -⟩; exact hmem h1)]
    simp
  · intro page hmem dest hmatch huniq
    rw [resolveRewrites, foldl_rewrite_inv_lookup]
    rw [lastMatchingPage_unique rules dest pages page hmem hmatch huniq]
  · intro s hnone
    rw [resolveRewrites, foldl_rewrite_inv_lookup]
    rw [lastMatchingPage_none rules s pages hnone]
    simp

/-- C7 witness: one page, one literal rule; the map sends `a.md` to `x.md`
and the inverse sends it back. -/
theorem resolveRewrites_first_match_roundtrip_witness :
    List.lookup "x.md"
      (resolveRewrites ["a.md"] [staticRule "a.md" "x.md"]).inv =
      some "a.md" :=
  (resolveRewrites_first_match_roundtrip ["a.md"]
    [staticRule "a.md" "x.md"]).2.2.1 "a.md" (by decide) "x.md" (by decide)
    (by intro q hq hfq
        simp only [List.mem_singleton] at hq
        exact hq)

/-- C7 counterexample: two pages rewritten to the same destination by two
literal rules; first-match still binds `a.md` to `x.md`, but the inverse
binding for `x.md` is overwritten by the later page `b.md`, so
`inv (map "a.md")` is `"b.md"`, not the original page — the round-trip law
of the claim fails. -/
theorem resolveRewrites_counterexample :
    List.lookup "a.md"
      (resolveRewrites ["a.md", "b.md"]
        [staticRule "a.md" "x.md", staticRule "b.md" "x.md"]).map =
      some "x.md" ∧
    List.lookup "x.md"
      (resolveRewrites ["a.md", "b.md"]
        [staticRule "a.md" "x.md", staticRule "b.md" "x.md"]).inv =
      some "b.md" ∧
    ("b.md" : String) ≠ "a.md" := by
  refine ⟨by decide, by decide, by decide⟩

/-- Helper: once the first load has fixed `initialPath`, every later load is
lean exactly when its module path equals the initial one (and the state is
preserved). -/
theorem runLoads_after_first (ptf : String → String) (f0 : String) :
    ∀ (ps : List String), (∀ p ∈ ps, ptf p ≠ "") → ∀ (i : Nat) (p : String),
      ps[i]? = some p →
      ((runLoads ptf ⟨false, some f0⟩ ps)[i]?).map LoadDecision.usedLean =
        some (f0 == ptf p) := by
  intro ps
  induction ps with
  | nil =>
    intro _ i p hp
    simp at hp
  | cons q ps ih =>
    intro h i p hp
    have hstep : (loadPageFile ptf ⟨false, some f0⟩ q).2 = ⟨false, some f0⟩ := by
      by_cases hq : ptf q = "" <;> simp [loadPageFile, hq]
    cases i with
    | zero =>
      simp only [List.getElem?_cons_zero, Option.some.injEq] at hp
      subst hp
      have hq : ptf q ≠ "" := h q (List.mem_cons_self _ _)
      simp [runLoads, loadPageFile, hq]
    | succ i =>
      simp only [List.getElem?_cons_succ] at hp
      have := ih (fun r hr => h r (List.mem_cons_of_mem _ hr)) i p hp
      simp only [runLoads, List.getElem?_cons_succ, hstep]
      rw [hstep] at *
      exact this

/-- C2: in a client session, the lean (`.lean.js`) variant is requested
exactly when the load is the very first of the session or the target module
path equals the path of that first load; every other load takes the full
branch.  (Hypotheses: every path resolves to a non-empty module file, so
an import is attempted on each load.) -/
theorem lean_variant_selection (ptf : String → String) (p0 : String)
    (rest : List String) (h0 : ptf p0 ≠ "") (h : ∀ p ∈ rest, ptf p ≠ "") :
    (((runLoads ptf initLoaderState (p0 :: rest))[0]?).map
        LoadDecision.usedLean = some true) ∧
    (∀ (i : Nat) (p : String), rest[i]? = some p →
      ((runLoads ptf initLoaderState (p0 :: rest))[i + 1]?).map
          LoadDecision.usedLean = some (ptf p0 == ptf p)) := by
  have hrun : runLoads ptf initLoaderState (p0 :: rest) =
      ⟨some (replaceJsWithLeanJs (ptf p0)), true⟩ ::
        runLoads ptf ⟨false, some (ptf p0)⟩ rest := by
    simp [runLoads, loadPageFile, h0, initLoaderState]
  constructor
  · rw [hrun]
    simp
  · intro i p hp
    rw [hrun]
    simp only [List.getElem?_cons_succ]
    exact runLoads_after_first ptf (ptf p0) rest h i p hp

/-- C2 witness: the claim's example session.  Loading `/a` first, then `/b`,
then `/a` again (page files resolved by appending `.js`) takes the lean
branch for both loads of `/a` and the full branch for `/b`. -/
theorem lean_variant_selection_witness :
    ((runLoads (fun p => p ++ ".js") initLoaderState ["/a", "/b", "/a"])[0]?).map
        LoadDecision.usedLean = some true ∧
    ((runLoads (fun p => p ++ ".js") initLoaderState ["/a", "/b", "/a"])[1]?).map
        LoadDecision.usedLean = some false ∧
    ((runLoads (fun p => p ++ ".js") initLoaderState ["/a", "/b", "/a"])[2]?).map
        LoadDecision.usedLean = some true := by
  refine ⟨(lean_variant_selection (fun p => p ++ ".js") "/a" ["/b", "/a"]
      (by decide) (by decide)).1, ?_, ?_⟩
  · exact ((lean_variant_selection (fun p => p ++ ".js") "/a" ["/b", "/a"]
      (by decide) (by decide)).2 0 "/b" (by decide)).trans (by decide)
  · exact ((lean_variant_selection (fun p => p ++ ".js") "/a" ["/b", "/a"]
      (by decide) (by decide)).2 1 "/a" (by decide)).trans (by decide)

/-- Helper: `lexLe` is total. -/
theorem lexLe_total : ∀ a b : List Char, lexLe a b = true ∨ lexLe b a = true := by
  intro a
  induction a with
  | nil => intro b; exact Or.inl rfl
  | cons x xs ih =>
    intro b
    cases b with
    | nil => exact Or.inr rfl
    | cons y ys =>
      rcases lt_trichotomy x y with hxy | hxy | hxy
      · left; simp [lexLe, hxy]
      · subst hxy
        rcases ih ys with h | h
        · left; simp [lexLe, h]
        · right; simp [lexLe, h]
      · right; simp [lexLe, hxy]

/-- Helper: `lexLe` is transitive. -/
theorem lexLe_trans : ∀ a b c : List Char,
    lexLe a b = true → lexLe b c = true → lexLe a c = true := by
  intro a
  induction a with
  | nil => intro b c _ _; rfl
  | cons x xs ih =>
    intro b c hab hbc
    cases b with
    | nil => simp [lexLe] at hab
    | cons y ys =>
      cases c with
      | nil => simp [lexLe] at hbc
      | cons z zs =>
        simp only [lexLe] at hab hbc ⊢
        by_cases hxy : x < y
        · by_cases hyz : y < z
          · rw [if_pos (lt_trans hxy hyz)]
          · rw [if_neg hyz] at hbc
            by_cases hyez : y = z
            · subst hyez
              rw [if_pos hxy]
            · rw [if_neg hyez] at hbc
              cases hbc
        · rw [if_neg hxy] at hab
          by_cases hxey : x = y
          · subst hxey
            rw [if_pos rfl] at hab
            by_cases hxz : x < z
            · rw [if_pos hxz]
            · rw [if_neg hxz]
              rw [if_neg hxz] at hbc
              by_cases hxez : x = z
              · rw [if_pos hxez]
                subst hxez
                rw [if_pos rfl] at hbc
                exact ih ys zs hab hbc
              · rw [if_neg hxez]
                rw [if_neg hxez] at hbc
                cases hbc
          · rw [if_neg hxey] at hab
            cases hab

/-- Helper: `lexLe` is antisymmetric. -/
theorem lexLe_antisymm : ∀ a b : List Char,
    lexLe a b = true → lexLe b a = true → a = b := by
  intro a
  induction a with
  | nil =>
    intro b _ h2
    cases b with
    | nil => rfl
    | cons y ys => simp [lexLe] at h2
  | cons x xs ih =>
    intro b h1 h2
    cases b with
    | nil => simp [lexLe] at h1
    | cons y ys =>
      simp only [lexLe] at h1 h2
      by_cases hxy : x < y
      · rw [if_neg (asymm hxy), if_neg (ne_of_gt hxy)] at h2
        cases h2
      · rw [if_neg hxy] at h1
        by_cases hxey : x = y
        · subst hxey
          rw [if_pos rfl] at h1
          rw [if_neg hxy, if_pos rfl] at h2
          rw [ih ys h1 h2]
        · rw [if_neg hxey] at h1
          cases h1

instance : IsTotal String strLe := ⟨fun s t => lexLe_total s.data t.data⟩

instance : IsTrans String strLe :=
  ⟨fun a b c h1 h2 => lexLe_trans a.data b.data c.data h1 h2⟩

instance : IsAntisymm String strLe := by
  constructor
  intro a b h1 h2
  have h := lexLe_antisymm a.data b.data h1 h2
  cases a
  cases b
  exact congrArg String.mk h

/-- C4 (amended): `resolvePages` is stable across runs with identical
inputs — the page list does not depend on the enumeration order of the
content files; the enumerated content files are sorted lexicographically;
and the final resolved page list is the static pages in sorted order
followed by the expanded dynamic-route pages — the static prefix is sorted,
but the combined list is not globally sorted. -/
theorem resolvePages_spec (files files2 : List String)
    (expand : String → List String) (hperm : files.Perm files2) :
    resolvePagesModel files expand = resolvePagesModel files2 expand ∧
    List.Sorted strLe (sortStrings files) ∧
    resolvePagesModel files expand =
      (sortStrings files).filter (fun f => !isDynamicRouteFile f) ++
        ((sortStrings files).filter (fun f => isDynamicRouteFile f)).flatMap
          expand ∧
    List.Sorted strLe
      ((sortStrings files).filter (fun f => !isDynamicRouteFile f)) := by
  have hsort : sortStrings files = sortStrings files2 :=
    @List.eq_of_perm_of_sorted String strLe _ _ _
      ((List.perm_insertionSort strLe files).trans
        (hperm.trans (List.perm_insertionSort strLe files2).symm))
      (List.sorted_insertionSort strLe files)
      (List.sorted_insertionSort strLe files2)
  refine ⟨?_, List.sorted_insertionSort strLe files, rfl, ?_⟩
  · unfold resolvePagesModel
    rw [hsort]
  · exact (List.sorted_insertionSort strLe files).filter _

/-- C4 witness: two enumeration orders of the same two files produce the
same page list. -/
theorem resolvePages_spec_witness :
    resolvePagesModel ["b.md", "a.md"] (fun _ => []) =
      resolvePagesModel ["a.md", "b.md"] (fun _ => []) :=
  (resolvePages_spec ["b.md", "a.md"] ["a.md", "b.md"] (fun _ => [])
    (List.Perm.swap "a.md" "b.md" [])).1

/-- C4 counterexample: with the static page `z.md` and the dynamic-route
template `a/[id].md` expanding to `a/1.md`, the final page list is
`[z.md, a/1.md]` — the expanded dynamic page is appended after the static
pages, so the list is not in sorted order as the claim states. -/
theorem resolvePages_counterexample :
    resolvePagesModel ["a/[id].md", "z.md"]
        (fun r => if r = "a/[id].md" then ["a/1.md"] else []) =
      ["z.md", "a/1.md"] ∧
    ¬ List.Sorted strLe ["z.md", "a/1.md"] := by
  constructor
  · decide
  · intro h
    have hrel := (List.sorted_cons.mp h).1 "a/1.md" (by simp)
    exact absurd hrel (by decide)

/-- Helper: `takeWhile` stops exactly at the first failing element. -/
theorem takeWhile_append_stop (p : Char → Bool) :
    ∀ (l1 : List Char) (y : Char) (l2 : List Char),
      (∀ x ∈ l1, p x = true) → p y = false →
      (l1 ++ y :: l2).takeWhile p = l1 := by
  intro l1
  induction l1 with
  | nil =>
    intro y l2 _ hy
    simp [List.takeWhile_cons, hy]
  | cons a l ih =>
    intro y l2 hall hy
    simp [List.takeWhile_cons, hall a (List.mem_cons_self _ _),
      ih y l2 (fun x hx => hall x (List.mem_cons_of_mem _ hx)) hy]

/-- Helper: on a filename of the shape `base.hash.js` with a non-empty
`[-\w]` hash, `extractHash` recovers the hash. -/
theorem extractHash_concat (b hsh : String) (hne : hsh.data ≠ [])
    (hall : hsh.data.all hashChar = true) :
    extractHash (b ++ "." ++ hsh ++ ".js") = hsh := by
  unfold extractHash
  have hdata : (b ++ "." ++ hsh ++ ".js").data =
      b.data ++ '.' :: (hsh.data ++ ['.', 'j', 's']) := by
    simp [String.data_append]
  rw [hdata]
  rw [show (b.data ++ '.' :: (hsh.data ++ ['.', 'j', 's'])).reverse =
      's' :: 'j' :: '.' :: (hsh.data.reverse ++ '.' :: b.data.reverse) by
    simp]
  rw [show ('s' :: 'j' :: '.' ::
      (hsh.data.reverse ++ '.' :: b.data.reverse)).drop 3 =
      hsh.data.reverse ++ '.' :: b.data.reverse by simp]
  rw [takeWhile_append_stop hashChar hsh.data.reverse '.' b.data.reverse
    (fun x hx =>
      (List.all_eq_true.mp hall) x (List.mem_reverse.mp hx)) rfl]
  rw [List.reverse_reverse]

/-- Helper: a string always ends with an appended suffix. -/
theorem strEndsWith_append (s t : String) : strEndsWith (s ++ t) t = true := by
  unfold strEndsWith
  rw [List.isSuffixOf_iff_suffix, String.data_append]
  exact List.suffix_append s.data t.data

/-- C5: at client-bundle finalization, for every page entry chunk of the
bundle — an entry chunk whose facade module is a `.md` file: its hash
fragment, taken from the generated filename, is recorded in the
page-to-hash map under the lowercased chunk name (and on a filename of the
shape `base.hash.js` that fragment is exactly `hash`); a lean variant of
the chunk is emitted under the `-lean` key whose filename ends in
`.lean.js` and whose sentinel-delimited static regions are replaced by
empty string literals; and the sentinel markers are removed from the
original chunk's code. -/
theorem generateBundle_page_chunks (bundle : List (String × OutChunk))
    (n : String) (c : OutChunk) (hmem : (n, c) ∈ bundle)
    (hpage : isPageChunk c = true)
    (hjs : strEndsWith c.fileName ".js" = true) :
    ((lowerStr c.name, extractHash c.fileName) ∈
      (generateBundleClient bundle).2) ∧
    ((n ++ "-lean", leanChunkOf c) ∈ (generateBundleClient bundle).1) ∧
    (leanChunkOf c).code = stripStaticStr c.code ∧
    strEndsWith (leanChunkOf c).fileName ".lean.js" = true ∧
    ((n, { c with code := removeMarkersStr c.code }) ∈
      (generateBundleClient bundle).1) ∧
    (∀ b hsh, c.fileName = b ++ "." ++ hsh ++ ".js" → hsh.data ≠ [] →
      hsh.data.all hashChar = true → extractHash c.fileName = hsh) := by
  have hends : strEndsWith (leanChunkOf c).fileName ".lean.js" = true := by
    show strEndsWith (replaceJsWithLeanJs c.fileName) ".lean.js" = true
    unfold replaceJsWithLeanJs
    rw [if_pos hjs]
    exact strEndsWith_append _ _
  have hmems :
      ((lowerStr c.name, extractHash c.fileName) ∈
        (generateBundleClient bundle).2) ∧
      ((n ++ "-lean", leanChunkOf c) ∈ (generateBundleClient bundle).1) ∧
      ((n, { c with code := removeMarkersStr c.code }) ∈
        (generateBundleClient bundle).1) := by
    induction bundle with
    | nil => cases hmem
    | cons e rest ih =>
      obtain ⟨en, ec⟩ := e
      rcases List.mem_cons.mp hmem with he | hm
      · injection he with he1 he2
        subst he1
        subst he2
        refine ⟨?_, ?_, ?_⟩ <;>
          simp [generateBundleClient, hpage, leanChunkOf]
      · obtain ⟨ih1, ih2, ih3⟩ := ih hm
        by_cases hec : isPageChunk ec = true <;>
          exact ⟨by simp [generateBundleClient, hec, ih1],
                 by simp [generateBundleClient, hec, ih2],
                 by simp [generateBundleClient, hec, ih3]⟩
  refine ⟨hmems.1, hmems.2.1, rfl, hends, hmems.2.2, ?_⟩
  intro b hsh hfn hne hall
  rw [hfn]
  exact extractHash_concat b hsh hne hall

/-- C5 witness: a concrete one-chunk bundle.  The page chunk named `Index`
with filename `assets/Index.4a5b-6c.js` yields the lowercased hash entry
`("index", "4a5b-6c")` in the page-to-hash map. -/
theorem generateBundle_page_chunks_witness :
    ("index", "4a5b-6c") ∈
      (generateBundleClient
        [("index",
          ⟨true, true, some "/src/index.md", "Index", "assets/Index.4a5b-6c.js",
            "assets/Index.[hash].js",
            "x(\x27__VP_STATIC_START__<p>hi</p>__VP_STATIC_END__\x27, 1)"⟩)]).2 :=
  (generateBundle_page_chunks
    [("index",
      ⟨true, true, some "/src/index.md", "Index", "assets/Index.4a5b-6c.js",
        "assets/Index.[hash].js",
        "x(\x27__VP_STATIC_START__<p>hi</p>__VP_STATIC_END__\x27, 1)"⟩)]
    "index"
    ⟨true, true, some "/src/index.md", "Index", "assets/Index.4a5b-6c.js",
      "assets/Index.[hash].js",
      "x(\x27__VP_STATIC_START__<p>hi</p>__VP_STATIC_END__\x27, 1)"⟩
    (by decide) (by decide) (by decide)).1

/-- C1 (amended): when a `loadPage` call for path A is superseded by a later
call for a different path B before its import resolves, A's result is
discarded silently — its resolution leaves the Route untouched — and the
final Route reflects B, whichever import resolves first. -/
theorem loadPage_superseded_distinct (r0 : NavRoute) (l0 : Option String)
    (pA pB : String) (mA mB : PageModuleC) (hne : pA ≠ pB) :
    (navRun ⟨r0, l0, []⟩
        [.start pA mA, .start pB mB, .resolve 1, .resolve 0]).route =
      ⟨pB, some mB.comp, some mB.data⟩ ∧
    (navRun ⟨r0, l0, []⟩
        [.start pA mA, .start pB mB, .resolve 0, .resolve 1]).route =
      ⟨pB, some mB.comp, some mB.data⟩ ∧
    (navRun ⟨r0, l0, []⟩ [.start pA mA, .start pB mB, .resolve 0]).route =
      (navRun ⟨r0, l0, []⟩ [.start pA mA, .start pB mB]).route ∧
    (navRun ⟨r0, l0, []⟩
        [.start pA mA, .start pB mB, .resolve 1, .resolve 0]).route =
      (navRun ⟨r0, l0, []⟩ [.start pA mA, .start pB mB, .resolve 1]).route := by
  refine ⟨?_, ?_, ?_, ?_⟩ <;>
    simp [navRun, navStep, hne, Ne.symm hne]

/-- C1 witness: concrete paths `/a`, `/b` with distinct modules; with the
B import resolving last, B's component and data stay in the Route. -/
theorem loadPage_superseded_distinct_witness :
    (navRun ⟨⟨"/", none, none⟩, none, []⟩
        [.start "/a" ⟨1, 10⟩, .start "/b" ⟨2, 20⟩, .resolve 1, .resolve 0]).route =
      ⟨"/b", some 2, some 20⟩ :=
  (loadPage_superseded_distinct ⟨"/", none, none⟩ none "/a" "/b" ⟨1, 10⟩ ⟨2, 20⟩
    (by decide)).1

/-- C1 counterexample: two `loadPage` calls for the same path `/a` (e.g. a
repeated navigation while a redeploy changes the module) with different
module results.  The token `latestPendingPath` stores only the pathname, so
the superseded first call still satisfies the guard when its import
resolves first: it mutates the Route (component 1, data 10), and the most
recent call's result (component 2, data 20) is then discarded — against the
claim that only the most recently initiated call may mutate and that the
superseded call is discarded without mutation. -/
theorem loadPage_superseded_counterexample :
    (navRun ⟨⟨"/", none, none⟩, none, []⟩
        [.start "/a" ⟨1, 10⟩, .start "/a" ⟨2, 20⟩, .resolve 0, .resolve 1]).route =
      ⟨"/a", some 1, some 10⟩ ∧
    (⟨"/a", some 1, some 10⟩ : NavRoute) ≠ ⟨"/a", some 2, some 20⟩ ∧
    (navRun ⟨⟨"/", none, none⟩, none, []⟩
        [.start "/a" ⟨1, 10⟩, .start "/a" ⟨2, 20⟩, .resolve 0]).route ≠
      (navRun ⟨⟨"/", none, none⟩, none, []⟩
        [.start "/a" ⟨1, 10⟩, .start "/a" ⟨2, 20⟩]).route := by
  refine ⟨by decide, by decide, by decide⟩

/-- C3: when the first module load of a `loadPage` call fails and the call
is not already a retry, the router refetches the hash map and retries the
load exactly once (two module-load attempts in total); if the retried load
also fails, the Route is set to the not-found component and the not-found
page data; when the hash-map refetch itself fails there is no second
attempt and the Route falls back to not-found directly; and no execution
ever makes more than two module-load attempts (every branch returns a
final state to the caller rather than rethrowing). -/
theorem loadPage_retry_spec (env : LoadEnv) (pendingPath : String)
    (st : LPState) (hfail : env.loadResult false = none) :
    (env.fetchHashOk = true → (loadPageCall env pendingPath st).2 = 2) ∧
    (env.fetchHashOk = true → env.loadResult true = none →
      (loadPageCall env pendingPath st).1.route =
        ⟨pendingPath, env.fallback,
          .notFound (notFoundRelativePath pendingPath)⟩) ∧
    (env.fetchHashOk = false →
      (loadPageCall env pendingPath st).2 = 1 ∧
      (loadPageCall env pendingPath st).1.route =
        ⟨pendingPath, env.fallback,
          .notFound (notFoundRelativePath pendingPath)⟩) ∧
    (∀ env2 : LoadEnv, (loadPageCall env2 pendingPath st).2 ≤ 2) := by
  refine ⟨?_, ?_, ?_, ?_⟩
  · intro hf
    simp only [loadPageCall, loadPageTry, hfail, hf, if_true, loadPageRetry]
    cases env.loadResult true with
    | none => simp
    | some m => cases hc : m.comp <;> simp [hc]
  · intro hf hfail2
    simp [loadPageCall, loadPageTry, hfail, hf, loadPageRetry, hfail2,
      notFoundUpdate]
  · intro hf
    simp [loadPageCall, loadPageTry, hfail, hf, notFoundUpdate]
  · intro env2
    unfold loadPageCall
    cases loadPageTry (env2.loadResult false) pendingPath st with
    | ok st1 => simp
    | error st1 =>
      by_cases hf : env2.fetchHashOk = true
      · simp only [hf, if_true, loadPageRetry]
        cases loadPageTry (env2.loadResult true) pendingPath st1 <;> simp
      · simp [hf]

/-- C3 witness: both attempts fail with the hash map refetch succeeding; the
call makes exactly two attempts and ends on the not-found route for
`/docs/missing` with relative path `docs/missing.md`. -/
theorem loadPage_retry_spec_witness :
    (loadPageCall ⟨fun _ => none, true, some 7⟩ "/docs/missing"
        ⟨⟨"/", none, .notFound "404.md"⟩, none⟩).2 = 2 ∧
    (loadPageCall ⟨fun _ => none, true, some 7⟩ "/docs/missing"
        ⟨⟨"/", none, .notFound "404.md"⟩, none⟩).1.route =
      ⟨"/docs/missing", some 7, .notFound "docs/missing.md"⟩ := by
  refine ⟨(loadPage_retry_spec ⟨fun _ => none, true, some 7⟩ "/docs/missing"
      ⟨⟨"/", none, .notFound "404.md"⟩, none⟩ rfl).1 rfl, ?_⟩
  exact ((loadPage_retry_spec ⟨fun _ => none, true, some 7⟩ "/docs/missing"
      ⟨⟨"/", none, .notFound "404.md"⟩, none⟩ rfl).2.1 rfl rfl).trans (by decide)

end VP
